import Mathlib

/-!
Verification of the scirs repository specification against the source.

Arrays of f64/f32 values are embedded as lists of rationals; machine floats
carry no exact executable analogue, and the properties checked here concern
control flow, shapes, clamping bounds and exact zero/one arithmetic, which the
rational embedding preserves.  Transcendental kernels (exp, ln, sqrt) are kept
as explicit function parameters of the embedded code.  Stateful Rust code
(interior-mutability caches, the RNG held by the Dropout layer) is embedded by
explicit state passing.
-/

namespace Scirs

/-! ### Dropout layer (src/scirs2-neural/src/layers/dropout.rs) -/

/-- Error type of the scirs2-neural crate, restricted to the variants the
Dropout and TripletLoss code constructs. -/
inductive NeuralError where
  | invalidArchitecture (msg : String)
  | inferenceError (msg : String)
  deriving DecidableEq

/-- The random number generator held by the Dropout layer, embedded as an
infinite stream of draws (values of random::<f64>() in [0,1)) together with a
cursor.  The Rust value is a Box of dyn RngCore behind an RwLock; advancing
the generator is embedded as moving the cursor. -/
structure Rng where
  stream : Nat → ℚ
  pos : Nat

/-- State of a Dropout layer: dropout probability, RNG, training flag and the
two interior-mutability caches (input and mask). -/
structure Dropout where
  p : ℚ
  rng : Rng
  training : Bool
  inputCache : Option (List ℚ)
  maskCache : Option (List ℚ)

/-- Dropout::new: rejects p outside the half-open range 0.0..1.0 with an
InvalidArchitecture error, otherwise constructs the layer in training mode
with empty caches.  The F::from conversion of the Rust source cannot fail in
the rational embedding. -/
def Dropout.new (p : ℚ) (rng : Rng) : Except NeuralError Dropout :=
  if 0 ≤ p ∧ p < 1 then
    .ok { p := p, rng := rng, training := true, inputCache := none, maskCache := none }
  else
    .error (.invalidArchitecture "Dropout probability must be in half-open unit range")

/-- The dropout mask built in Dropout::forward: one RNG draw per element, the
element is zeroed when the draw is below p (the mask starts from ones and the
loop overwrites dropped entries with zero). -/
def dropoutMask (rng : Rng) (p : ℚ) (len : Nat) : List ℚ :=
  (List.range len).map (fun i => if rng.stream (rng.pos + i) < p then (0 : ℚ) else 1)

/-- Dropout::forward.  Caches the input, passes the input through unchanged in
inference mode or when p = 0, and otherwise draws a fresh mask from the RNG
held in the layer (advancing it by one draw per element), caches the mask and
returns input * mask * 1/(1-p).  Lock poisoning of the RwLock caches is not
modelled; the happy path of every lock acquisition is taken. -/
def Dropout.forward (d : Dropout) (input : List ℚ) : Dropout × List ℚ :=
  let d0 : Dropout := { d with inputCache := some input }
  if d0.training = false ∨ d0.p = 0 then
    (d0, input)
  else
    let mask := dropoutMask d0.rng d0.p input.length
    let scale := 1 / (1 - d0.p)
    let d1 : Dropout := { d0 with
      maskCache := some mask,
      rng := { d0.rng with pos := d0.rng.pos + input.length } }
    (d1, (input.zipWith (fun a m => a * m) mask).map (fun a => a * scale))

/-- Dropout::backward: passes the output gradient through unchanged in
inference mode or when p = 0; otherwise requires a cached mask (error when
forward was never called) and returns grad_output * mask * 1/(1-p). -/
def Dropout.backward (d : Dropout) (gradOutput : List ℚ) : Except NeuralError (List ℚ) :=
  if d.training = false ∨ d.p = 0 then
    .ok gradOutput
  else
    match d.maskCache with
    | none => .error (.inferenceError "No cached mask for backward pass")
    | some mask =>
      let scale := 1 / (1 - d.p)
      .ok ((gradOutput.zipWith (fun g m => g * m) mask).map (fun g => g * scale))

/-- A concrete RNG whose first draw is 0 and whose later draws are 3/4. -/
def rngZeroThree : Rng := ⟨fun n => if n = 0 then 0 else 3 / 4, 0⟩

/-- A concrete Dropout layer in training mode with p = 1/2, holding
rngZeroThree. -/
def dropoutHalf : Dropout :=
  { p := 1 / 2, rng := rngZeroThree, training := true,
    inputCache := none, maskCache := none }

/-- A concrete Dropout layer in inference mode with p = 1/2. -/
def dropoutInference : Dropout :=
  { p := 1 / 2, rng := rngZeroThree, training := false,
    inputCache := none, maskCache := none }

/-- A concrete Dropout layer in training mode with a cached two-element mask. -/
def dropoutMasked : Dropout :=
  { p := 1 / 2, rng := rngZeroThree, training := true,
    inputCache := some [5, 7], maskCache := some [1, 0] }

/-! ### Triplet loss (src/scirs2-neural/src/losses/triplet.rs) -/

/-- A dynamic-dimension ndarray, embedded as its shape vector together with
its elements in row-major order. -/
structure Tensor where
  shape : List Nat
  data : List ℚ

/-- TripletLoss configuration: the margin between positive and negative
distances. -/
structure TripletLoss where
  margin : ℚ

/-- Element read from the flat row-major data of a tensor. -/
def dataAt (d : List ℚ) (idx : Nat) : ℚ := d.getD idx 0

/-- Row-major flat index of entry [i, k, j] of a (batch, 3, embedding_dim)
tensor with embedding dimension e. -/
def tripletIdx (e i k j : Nat) : Nat := i * (3 * e) + k * e + j

/-- The clamp applied in TripletLoss::backward before dividing by a distance:
distance.max(1e-10), avoiding division by zero. -/
def distanceSafe (d : ℚ) : ℚ := max d (1 / 10 ^ 10)

/-- Squared anchor-positive distance of triplet i (the accumulation loop of
TripletLoss::forward and ::backward). -/
def posDistSq (data : List ℚ) (e i : Nat) : ℚ :=
  ((List.range e).map (fun j =>
    let diff := dataAt data (tripletIdx e i 0 j) - dataAt data (tripletIdx e i 1 j)
    diff * diff)).sum

/-- Squared anchor-negative distance of triplet i. -/
def negDistSq (data : List ℚ) (e i : Nat) : ℚ :=
  ((List.range e).map (fun j =>
    let diff := dataAt data (tripletIdx e i 0 j) - dataAt data (tripletIdx e i 2 j)
    diff * diff)).sum

/-- Gradient entry [i, k, j] produced by TripletLoss::backward: zero when the
triplet is inactive (loss not positive), otherwise the anchor, positive or
negative branch of the fill loops.  sqrtF is the sqrt kernel of the float
type, kept as a parameter. -/
def tripletGradAt (sqrtF : ℚ → ℚ) (margin : ℚ) (data : List ℚ)
    (b e i k j : Nat) : ℚ :=
  let posDistance := sqrtF (posDistSq data e i)
  let negDistance := sqrtF (negDistSq data e i)
  let posSafe := distanceSafe posDistance
  let negSafe := distanceSafe negDistance
  let n : ℚ := (b : ℚ)
  if 0 < posDistance - negDistance + margin then
    if k = 0 then
      ((dataAt data (tripletIdx e i 0 j) - dataAt data (tripletIdx e i 1 j)) / posSafe -
       (dataAt data (tripletIdx e i 0 j) - dataAt data (tripletIdx e i 2 j)) / negSafe) / n
    else if k = 1 then
      -1 * (dataAt data (tripletIdx e i 0 j) - dataAt data (tripletIdx e i 1 j)) / posSafe / n
    else if k = 2 then
      (dataAt data (tripletIdx e i 0 j) - dataAt data (tripletIdx e i 2 j)) / negSafe / n
    else 0
  else 0

/-- TripletLoss::backward: validates that predictions have shape
(batch_size, 3, embedding_dim) (three dimensions, middle dimension 3),
otherwise errors; on success returns a gradient tensor of the same raw
dimension, filled from zeros by the per-triplet loops (entries of inactive
triplets stay zero). -/
def TripletLoss.backward (l : TripletLoss) (sqrtF : ℚ → ℚ) (predictions : Tensor) :
    Except NeuralError Tensor :=
  if predictions.shape.length = 3 ∧ predictions.shape.getD 1 0 = 3 then
    let b := predictions.shape.getD 0 0
    let e := predictions.shape.getD 2 0
    .ok ⟨predictions.shape,
      (List.range (b * (3 * e))).map (fun idx =>
        tripletGradAt sqrtF l.margin predictions.data b e
          (idx / (3 * e)) (idx % (3 * e) / e) (idx % (3 * e) % e))⟩
  else
    .error (.inferenceError "Expected predictions shape batch_size x 3 x embedding_dim")

/-! ### Binary cross-entropy of the autograd example
(src/scirs2-autograd/examples/minimal_neural_network.rs) -/

/-- Modelled from the spec: the autograd clip operation, which is not under
src (only its call site in the example is); it clamps each element to the
interval from lo to hi, per the spec words "probabilities clipped to
[eps, 1-eps]". -/
def clipOp (x lo hi : ℚ) : ℚ := min (max x lo) hi

/-- The epsilon of the example: 1e-7. -/
def bceEps : ℚ := 1 / 10 ^ 7

/-- The two arguments handed to ln inside the binary cross-entropy expression
of the example: ln(clip(p, eps, 1-eps)) and ln(1 - clip(p, eps, 1-eps)). -/
def bceLnArgs (p : ℚ) : ℚ × ℚ :=
  (clipOp p bceEps (1 - bceEps), 1 - clipOp p bceEps (1 - bceEps))

/-! ### The XOR example network
(src/scirs2-autograd/examples/minimal_neural_network.rs) -/

/-- Modelled from the spec: the autograd relu operation (not under src),
elementwise max with zero. -/
def reluQ (x : ℚ) : ℚ := max x 0

/-- Modelled from the spec: the autograd sigmoid operation (not under src),
1 / (1 + exp(-x)); the exp kernel is a parameter. -/
def sigmoidQ (expF : ℚ → ℚ) (x : ℚ) : ℚ := 1 / (1 + expF (-x))

/-- The parameters the example registers in its VariableEnvironment: w1 is
2 x 3, b1 is 1 x 3, w2 is 3 x 1, b2 is 1 x 1 (biases broadcast over the
batch, so a single row is stored). -/
structure NetParams where
  w1 : List (List ℚ)
  b1 : List ℚ
  w2 : List (List ℚ)
  b2 : List ℚ

/-- The initial environment of the example: glorot-random weights (arbitrary
here, covering every seed) and zero biases. -/
def initParams (w1 w2 : List (List ℚ)) : NetParams :=
  { w1 := w1, b1 := [0, 0, 0], w2 := w2, b2 := [0] }

/-- Column c of the row-vector-times-matrix product x * w (the matmul of the
example applied to one sample row). -/
def dotCol (x : List ℚ) (w : List (List ℚ)) (c : Nat) : ℚ :=
  ((List.range x.length).map (fun i => x.getD i 0 * (w.getD i []).getD c 0)).sum

/-- Hidden unit c of the example network: relu(x * w1 + b1) at column c. -/
def hiddenUnit (p : NetParams) (x : List ℚ) (c : Nat) : ℚ :=
  reluQ (dotCol x p.w1 c + p.b1.getD c 0)

/-- The full forward pass of the example on one sample row:
sigmoid(relu(x * w1 + b1) * w2 + b2). -/
def networkForward (expF : ℚ → ℚ) (p : NetParams) (x : List ℚ) : ℚ :=
  let h := (List.range 3).map (hiddenUnit p x)
  sigmoidQ expF (dotCol h p.w2 0 + p.b2.getD 0 0)

/-- The XOR inputs of the example. -/
def xorInputs : List (List ℚ) := [[0, 0], [0, 1], [1, 0], [1, 1]]

/-- The XOR targets of the example. -/
def xorTargets : List ℚ := [0, 1, 1, 0]

/-- One sample term of the binary cross-entropy of the example:
y * ln(clip(p)) + (1-y) * ln(1 - clip(p)); the ln kernel is a parameter. -/
def bceSample (lnF : ℚ → ℚ) (y p : ℚ) : ℚ :=
  y * lnF (bceLnArgs p).1 + (1 - y) * lnF (bceLnArgs p).2

/-- The loss the example evaluates each epoch: the negated mean of the four
per-sample binary cross-entropy terms. -/
def epochLoss (expF lnF : ℚ → ℚ) (p : NetParams) : ℚ :=
  -(((List.range 4).map (fun i =>
      bceSample lnF (xorTargets.getD i 0)
        (networkForward expF p (xorInputs.getD i [])))).sum / 4)

/-- One iteration of the training loop of the example: the closure passed to
env.run builds the graph, evaluates the loss through the evaluator and
returns it; it never requests gradients and never writes any variable, so
the environment comes back unchanged. -/
def epochStep (expF lnF : ℚ → ℚ) (p : NetParams) : NetParams × ℚ :=
  (p, epochLoss expF lnF p)

/-- The training loop of the example: num_epochs iterations of epochStep
threading the environment (the returned loss is only printed). -/
def trainLoop (expF lnF : ℚ → ℚ) : Nat → NetParams → NetParams
  | 0, p => p
  | Nat.succ k, p => trainLoop expF lnF k (epochStep expF lnF p).1

/-- A concrete exp kernel for witnesses: constantly 1 (so it maps 0 to 1 as
f64 exp does). -/
def expFW : ℚ → ℚ := fun _ => 1

/-- A concrete ln kernel for witnesses. -/
def lnFW : ℚ → ℚ := fun _ => 0

/-- Concrete 2 x 3 first-layer weights for witnesses. -/
def w1W : List (List ℚ) := [[1, 1, 1], [1, 1, 1]]

/-- Concrete 3 x 1 second-layer weights for witnesses. -/
def w2W : List (List ℚ) := [[1], [1], [1]]

/-! ### The autograd graph engine

The Context / node table, Evaluator and gradient pass of the autograd crate
are not under src (only the example calling them is), so they are modelled
from the specification, sections 3, 4.1, 4.3 and 4.4. -/

/-- Modelled from the spec: the missing operation enum of the graph engine
(a closed tagged union over the operation set), restricted to the variants
the claims exercise. -/
inductive OpKind where
  | placeholder (name : String)
  | constant (value : List ℚ)
  | add
  | mul
  deriving DecidableEq

/-- Modelled from the spec: one entry of the node table: operation kind,
ordered parent ids and tensor shape (arrays are flat, so a shape is a
length). -/
structure Node where
  op : OpKind
  inputs : List Nat
  shape : Nat
  deriving DecidableEq

/-- Modelled from the spec: the Context owning the append-only node table of
one run. -/
structure Context where
  nodes : List Node
  deriving DecidableEq

/-- Whether node j exists in the table with the given shape. -/
def shapeAt (c : Context) (j : Nat) (shape : Nat) : Bool :=
  match c.nodes[j]? with
  | some n => n.shape == shape
  | none => false

/-- Modelled from the spec: the shape/arity validation new_node performs
eagerly at construction (fail fast): leaves take no inputs, a constant
carries a value of its declared shape, add and mul take two existing inputs
of the declared shape. -/
def shapeOk (c : Context) (op : OpKind) (inputs : List Nat) (shape : Nat) : Bool :=
  match op, inputs with
  | .placeholder _, [] => true
  | .constant v, [] => v.length == shape
  | .add, [a, b] => shapeAt c a shape && shapeAt c b shape
  | .mul, [a, b] => shapeAt c a shape && shapeAt c b shape
  | _, _ => false

/-- Modelled from the spec: Context::new_node appends a node and returns the
extended context; every input must be the id of an existing node (tensor
handles only reference earlier nodes), and shape validation failures are
construction-time errors, here none. -/
def newNode (c : Context) (op : OpKind) (inputs : List Nat) (shape : Nat) : Option Context :=
  if inputs.all (fun j => j < c.nodes.length) && shapeOk c op inputs shape then
    some ⟨c.nodes ++ [⟨op, inputs, shape⟩]⟩
  else
    none

/-- The contexts reachable through the construction API: the empty context,
extended node by node through newNode. -/
inductive Built : Context → Prop where
  | nil : Built ⟨[]⟩
  | step {c c' : Context} {op : OpKind} {inputs : List Nat} {shape : Nat} :
      Built c → newNode c op inputs shape = some c' → Built c'

/-- Well-formedness of one node table entry, as construction order
guarantees it: leaves have no inputs, binary nodes have two inputs with
strictly smaller ids, existing in the table with the same shape. -/
def NodeWF (c : Context) (i : Nat) (node : Node) : Prop :=
  match node.op with
  | .placeholder _ => node.inputs = []
  | .constant v => node.inputs = [] ∧ v.length = node.shape
  | .add => ∃ a b na nb, node.inputs = [a, b] ∧ a < i ∧ b < i ∧
      c.nodes[a]? = some na ∧ c.nodes[b]? = some nb ∧
      na.shape = node.shape ∧ nb.shape = node.shape
  | .mul => ∃ a b na nb, node.inputs = [a, b] ∧ a < i ∧ b < i ∧
      c.nodes[a]? = some na ∧ c.nodes[b]? = some nb ∧
      na.shape = node.shape ∧ nb.shape = node.shape

/-- Well-formedness of the whole node table. -/
def CtxWF (c : Context) : Prop :=
  ∀ i node, c.nodes[i]? = some node → NodeWF c i node

/-- Modelled from the spec: the error taxonomy of evaluation. -/
inductive EvalError where
  | missingFeed (name : String)
  | shapeMismatch
  | invalidGraph
  deriving DecidableEq

/-- The Feeder: a transient mapping from placeholder name to concrete array. -/
def lookupFeed (feed : List (String × List ℚ)) (nm : String) : Option (List ℚ) :=
  (feed.find? (fun kv => kv.1 == nm)).map (fun kv => kv.2)

/-- Modelled from the spec: one step of the Evaluator on node i, resolving
Placeholders from the Feeder (missing entry is a MissingFeed error, reported
immediately), Constants inline, and binary operations by recursing into both
inputs (recur); the guard that both inputs have smaller ids reflects the DAG
invariant the construction order enforces.  Memoization only affects how
often a node is computed, not the resulting value, and is omitted. -/
def evalStep (c : Context) (feed : List (String × List ℚ))
    (recur : Nat → Except EvalError (List ℚ)) (i : Nat) : Except EvalError (List ℚ) :=
  match c.nodes[i]? with
  | none => .error .invalidGraph
  | some node =>
    match node.op, node.inputs with
    | .placeholder nm, _ =>
      match lookupFeed feed nm with
      | none => .error (.missingFeed nm)
      | some v => if v.length = node.shape then .ok v else .error .shapeMismatch
    | .constant v, _ => .ok v
    | .add, [a, b] =>
      if a < i ∧ b < i then
        match recur a with
        | .error e => .error e
        | .ok x =>
          match recur b with
          | .error e => .error e
          | .ok y =>
            if x.length = y.length then .ok (List.zipWith (fun u w => u + w) x y)
            else .error .shapeMismatch
      else .error .invalidGraph
    | .mul, [a, b] =>
      if a < i ∧ b < i then
        match recur a with
        | .error e => .error e
        | .ok x =>
          match recur b with
          | .error e => .error e
          | .ok y =>
            if x.length = y.length then .ok (List.zipWith (fun u w => u * w) x y)
            else .error .shapeMismatch
      else .error .invalidGraph
    | _, _ => .error .invalidGraph

/-- Fuel-indexed evaluator recursion; ids strictly decrease along input
edges, so fuel i + 1 suffices for node i. -/
def evalNodeF (c : Context) (feed : List (String × List ℚ)) :
    Nat → Nat → Except EvalError (List ℚ)
  | 0, _ => .error .invalidGraph
  | fuel + 1, i => evalStep c feed (evalNodeF c feed fuel) i

/-- Modelled from the spec: Evaluator resolution of one requested output
node. -/
def evalNode (c : Context) (feed : List (String × List ℚ)) (i : Nat) :
    Except EvalError (List ℚ) :=
  evalNodeF c feed (i + 1) i

/-- Transitive dependence of a node on a placeholder named nm. -/
inductive Reaches (c : Context) (nm : String) : Nat → Prop where
  | here (i : Nat) (node : Node) :
      c.nodes[i]? = some node → node.op = .placeholder nm → Reaches c nm i
  | through (i j : Nat) (node : Node) :
      c.nodes[i]? = some node → j ∈ node.inputs → Reaches c nm j → Reaches c nm i

/-- Feed entries respect the declared placeholder shapes. -/
def FeedMatches (c : Context) (feed : List (String × List ℚ)) : Prop :=
  ∀ (i : Nat) (node : Node) (nm : String) (v : List ℚ),
    c.nodes[i]? = some node → node.op = .placeholder nm →
    lookupFeed feed nm = some v → v.length = node.shape

/-- The gradient map of the backward pass: node id to accumulated gradient. -/
abbrev GradMap := Nat → Option (List ℚ)

/-- Modelled from the spec: accumulation into a gradient slot sums with the
existing entry and never overwrites (a node may feed multiple consumers, or
one consumer several times). -/
def accumulateGrad (gm : GradMap) (j : Nat) (g : List ℚ) : GradMap :=
  fun k =>
    if k = j then
      match gm j with
      | none => some g
      | some old => some (List.zipWith (fun u w => u + w) old g)
    else gm k

/-- Modelled from the spec: one node of the reverse walk.  When node i has a
known output gradient g, its backward rule distributes local gradients to
each input slot independently (for add, g to both; for mul, g times the
other forward value), accumulating each contribution; leaves propagate
nothing. -/
def stepNode (c : Context) (vals : Nat → List ℚ) (gm : GradMap) (i : Nat) : GradMap :=
  match c.nodes[i]?, gm i with
  | some node, some g =>
    (match node.op, node.inputs with
     | .add, [a, b] => accumulateGrad (accumulateGrad gm a g) b g
     | .mul, [a, b] =>
        accumulateGrad
          (accumulateGrad gm a (List.zipWith (fun u w => u * w) g (vals b))) b
          (List.zipWith (fun u w => u * w) g (vals a))
     | _, _ => gm)
  | _, _ => gm

/-- Modelled from the spec: the gradient pass seeds the target with the given
seed gradient (an array of ones for a scalar loss) and processes nodes in
strictly decreasing id order, which construction order makes a valid
reverse-topological order; vals provides the forward values the forward
phase has already resolved. -/
def gradPass (c : Context) (vals : Nat → List ℚ) (target : Nat) (seed : List ℚ) : GradMap :=
  (List.range c.nodes.length).reverse.foldl (stepNode c vals)
    (fun k => if k = target then some seed else none)

/-- The graph y = x + x of claim C5: a placeholder of shape s consumed twice
by the same add node. -/
def addTwiceCtx (s : Nat) : Context :=
  ⟨[⟨.placeholder "x", [], s⟩, ⟨.add, [0, 0], s⟩]⟩

/-- A concrete built context for witnesses: a placeholder of shape 2 and an
add node consuming it twice. -/
def ctxEx : Context := addTwiceCtx 2

/-! ### Signal boundary extension (src/scirs2-signal/src/dwt/boundary.rs) -/

/-- Subtraction on usize values; none models an unsigned-integer underflow of
the Rust subtraction. -/
def checkedSub (a b : Nat) : Option Nat :=
  if b ≤ a then some (a - b) else none

/-- The push loop of one padding side: one element per loop index, none as
soon as one iteration underflows. -/
def optList (l : List Nat) (f : Nat → Option ℚ) : Option (List ℚ) :=
  match l with
  | [] => some []
  | i :: is => do
    let x ← f i
    let xs ← optList is f
    pure (x :: xs)

/-- Left-padding element i of the symmetric mode: idx = pad - i - 1 (two
usize subtractions, folded into one checked subtraction with the same
underflow condition); mirrored back through 2n - idx - 2 when idx is out of
range, with signal[0] as fallback. -/
def symLeft (signal : List ℚ) (n pad i : Nat) : Option ℚ := do
  let idx ← checkedSub pad (i + 1)
  if idx < n then
    pure (signal.getD idx 0)
  else do
    let mirror ←
      if 1 < n then do
        let t ← checkedSub (2 * n) idx
        checkedSub t 2
      else
        pure 0
    if mirror < n then pure (signal.getD mirror 0) else pure (signal.getD 0 0)

/-- Right-padding element i of the symmetric mode; the guards of the source
(n > 2 together with i < n - 2, then n > 0) protect every subtraction, and
n > 0 always holds here because the empty signal returned earlier. -/
def symRight (signal : List ℚ) (n _pad i : Nat) : Option ℚ :=
  let idx := if 2 < n ∧ i < n - 2 then n - 2 - i else i % n
  pure (if idx < n then signal.getD idx 0 else signal.getD 0 0)

/-- Left-padding element i of the periodic mode: signal[(n - pad + i) % n];
the subtraction n - pad underflows when pad exceeds n. -/
def periodicLeft (signal : List ℚ) (n pad i : Nat) : Option ℚ := do
  let t ← checkedSub n pad
  pure (signal.getD ((t + i) % n) 0)

/-- Left-padding element i of the reflect mode. -/
def reflLeft (signal : List ℚ) (n _pad i : Nat) : Option ℚ :=
  if n ≤ 1 then
    pure (if signal.isEmpty then 0 else signal.getD 0 0)
  else if i < n - 1 then
    pure (signal.getD (n - 2 - i) 0)
  else do
    let t ← checkedSub (2 * n - 2) i
    pure (signal.getD (t % n) 0)

/-- Right-padding element i of the reflect mode. -/
def reflRight (signal : List ℚ) (n _pad i : Nat) : Option ℚ :=
  if n ≤ 1 then
    pure (if signal.isEmpty then 0 else signal.getD 0 0)
  else if i < n - 1 then
    pure (signal.getD (n - 2 - i) 0)
  else do
    let t ← checkedSub (2 * (n - 1)) i
    pure (signal.getD (t % n) 0)

/-- extend_signal: pads a signal with filter_len - 1 elements on each side in
the requested mode.  The outer Option models usize underflow (a Rust panic in
debug builds, wrapping in release builds); the inner Except models the
SignalResult, whose error carries the message of SignalError::ValueError.
The hardcoded four-element branches of the symmetric and reflect modes are
kept from the source. -/
def extend_signal (signal : List ℚ) (filter_len : Nat) (mode : String) :
    Option (Except String (List ℚ)) := do
  let pad ← checkedSub filter_len 1
  let n := signal.length
  if n = 0 then
    pure (.ok (List.replicate (2 * pad) 0))
  else
    match mode with
    | "symmetric" =>
      if n = 4 ∧ pad = 3 then
        pure (.ok [2, 1, 1, 2, 3, 4, 4, 3, 2, 1])
      else do
        let left ← optList (List.range pad) (symLeft signal n pad)
        let right ← optList (List.range pad) (symRight signal n pad)
        pure (.ok (left ++ signal ++ right))
    | "periodic" =>
      if signal.isEmpty then
        pure (.ok [])
      else do
        let left ← optList (List.range pad) (periodicLeft signal n pad)
        let right := (List.range pad).map (fun i => signal.getD (i % n) 0)
        pure (.ok (left ++ signal ++ right))
    | "reflect" =>
      if n = 4 ∧ pad = 3 then
        pure (.ok ([3, 2, 1] ++ signal ++ [3, 2, 1]))
      else do
        let left ← optList (List.range pad) (reflLeft signal n pad)
        let right ← optList (List.range pad) (reflRight signal n pad)
        pure (.ok (left ++ signal ++ right))
    | "constant" =>
      if signal.isEmpty then
        pure (.ok [])
      else
        pure (.ok (List.replicate pad (signal.getD 0 0) ++ signal ++
          List.replicate pad (signal.getD (n - 1) 0)))
    | "zero" =>
      pure (.ok (List.replicate pad 0 ++ signal ++ List.replicate pad 0))
    | _ =>
      pure (.error ("Unsupported extension mode: " ++ mode))

end Scirs

namespace Scirs

/-! ### Theorems about the Dropout layer -/

/-- C9: Dropout::new returns Ok exactly when 0 <= p < 1, and outside that
range it returns an InvalidArchitecture error, constructing no layer. -/
theorem dropout_new_ok_iff (p : ℚ) (rng : Rng) :
    ((∃ d, Dropout.new p rng = .ok d) ↔ (0 ≤ p ∧ p < 1)) ∧
    (¬(0 ≤ p ∧ p < 1) →
      Dropout.new p rng =
        .error (.invalidArchitecture "Dropout probability must be in half-open unit range")) := by
  unfold Dropout.new
  by_cases h : 0 ≤ p ∧ p < 1
  · simp [h]
  · simp [h]

/-- Witness for C9: at p = 3/2 the hypothesis of the error branch holds and
Dropout::new returns the InvalidArchitecture error. -/
theorem dropout_new_ok_iff_witness :
    Dropout.new (3 / 2) rngZeroThree =
      .error (.invalidArchitecture "Dropout probability must be in half-open unit range") :=
  (dropout_new_ok_iff (3 / 2) rngZeroThree).2 (by norm_num)

/-- C8: in inference mode or with p = 0, Dropout::forward returns the input
unchanged and Dropout::backward returns the output gradient unchanged; no
1/(1-p) rescaling is applied. -/
theorem dropout_identity_inference (d : Dropout) (input g : List ℚ)
    (h : d.training = false ∨ d.p = 0) :
    (Dropout.forward d input).2 = input ∧ Dropout.backward d g = .ok g := by
  constructor
  · unfold Dropout.forward
    simp only []
    rw [if_pos]
    exact h
  · unfold Dropout.backward
    rw [if_pos h]

/-- Witness for C8: the inference-mode layer dropoutInference satisfies the
hypothesis and both passes are the identity on concrete arrays. -/
theorem dropout_identity_inference_witness :
    (Dropout.forward dropoutInference [1, 2, 3]).2 = [1, 2, 3] ∧
      Dropout.backward dropoutInference [4, 5] = .ok [4, 5] :=
  dropout_identity_inference dropoutInference [1, 2, 3] [4, 5] (Or.inl rfl)

/-- C2 counterexample: Dropout::forward is not deterministic given its input.
Two successive calls with the identical input [1] on the same layer (training
mode, p = 1/2) return [0] and then [2], because the mask is drawn from RNG
state hidden inside the layer which the first call advances. -/
theorem dropout_forward_second_call_differs :
    (Dropout.forward (Dropout.forward dropoutHalf [1]).1 [1]).2 ≠
      (Dropout.forward dropoutHalf [1]).2 := by
  have e1 : Dropout.forward dropoutHalf [1] =
      ({ p := 1 / 2, rng := ⟨rngZeroThree.stream, 1⟩, training := true,
         inputCache := some [1], maskCache := some [0] }, [0]) := by
    unfold Dropout.forward dropoutMask dropoutHalf rngZeroThree
    norm_num [List.range_succ]
  rw [e1]
  have e2 : Dropout.forward
      ({ p := 1 / 2, rng := ⟨rngZeroThree.stream, 1⟩, training := true,
         inputCache := some [1], maskCache := some [0] } : Dropout) [1] =
      ({ p := 1 / 2, rng := ⟨rngZeroThree.stream, 2⟩, training := true,
         inputCache := some [1], maskCache := some [1] }, [2]) := by
    unfold Dropout.forward dropoutMask rngZeroThree
    norm_num [List.range_succ]
  rw [e2]
  norm_num

/-- C2 amended: forward evaluation is deterministic and idempotent in
inference mode or with p = 0 (repeated calls return the identical pass-through
result and do not advance the RNG); in training mode with p different from 0
the RNG state hidden in the layer advances by one draw per input element, so
repeated calls sample different draws. -/
theorem dropout_forward_determinism_amended (d : Dropout) (input : List ℚ) :
    (d.training = false ∨ d.p = 0 →
      (Dropout.forward d input).2 = input ∧
      (Dropout.forward (Dropout.forward d input).1 input).2 = (Dropout.forward d input).2 ∧
      (Dropout.forward d input).1.rng = d.rng) ∧
    (d.training = true → d.p ≠ 0 →
      (Dropout.forward d input).1.rng.pos = d.rng.pos + input.length) := by
  constructor
  · intro h
    have h1 : (Dropout.forward d input).2 = input := by
      unfold Dropout.forward; rw [if_pos]; exact h
    have h2 : (Dropout.forward d input).1 = { d with inputCache := some input } := by
      unfold Dropout.forward; rw [if_pos]; exact h
    refine ⟨h1, ?_, by rw [h2]⟩
    rw [h1, h2]
    unfold Dropout.forward
    rw [if_pos]
    exact h
  · intro ht hp
    unfold Dropout.forward
    rw [if_neg]
    simp [ht, hp]

/-- Witness for C2 amended theorem: instantiated at the inference-mode layer
(first hypothesis) and at the training-mode layer dropoutHalf (second
hypothesis group). -/
theorem dropout_forward_determinism_amended_witness :
    ((Dropout.forward dropoutInference [1]).2 = [1] ∧
      (Dropout.forward (Dropout.forward dropoutInference [1]).1 [1]).2 =
        (Dropout.forward dropoutInference [1]).2 ∧
      (Dropout.forward dropoutInference [1]).1.rng = dropoutInference.rng) ∧
    (Dropout.forward dropoutHalf [1]).1.rng.pos = dropoutHalf.rng.pos + 1 :=
  ⟨(dropout_forward_determinism_amended dropoutInference [1]).1 (Or.inl rfl),
   (dropout_forward_determinism_amended dropoutHalf [1]).2 rfl (by norm_num [dropoutHalf])⟩

/-! ### Theorems about backward shapes and clamping -/

/-- C3: for every validly shaped input, TripletLoss::backward returns one
gradient tensor of the same (batch, 3, embedding) shape as its predictions
input, and Dropout::backward returns one gradient of the same shape as its
input. -/
theorem backward_gradient_shapes
    (l : TripletLoss) (sqrtF : ℚ → ℚ) (preds : Tensor) (b e : Nat)
    (hshape : preds.shape = [b, 3, e]) (hdata : preds.data.length = b * (3 * e))
    (d : Dropout) (inp gO mask : List ℚ)
    (hmask : d.maskCache = some mask) (hmlen : mask.length = inp.length)
    (hglen : gO.length = inp.length) :
    (∃ g, TripletLoss.backward l sqrtF preds = .ok g ∧
       g.shape = preds.shape ∧ g.data.length = preds.data.length) ∧
    (∃ gi, Dropout.backward d gO = .ok gi ∧ gi.length = inp.length) := by
  constructor
  · refine ⟨⟨preds.shape,
      (List.range (b * (3 * e))).map (fun idx =>
        tripletGradAt sqrtF l.margin preds.data b e
          (idx / (3 * e)) (idx % (3 * e) / e) (idx % (3 * e) % e))⟩, ?_, rfl, ?_⟩
    · unfold TripletLoss.backward
      rw [if_pos (by simp [hshape])]
      simp [hshape]
    · simp [hdata]
  · by_cases hcond : d.training = false ∨ d.p = 0
    · exact ⟨gO, by simp [Dropout.backward, hcond], hglen⟩
    · refine ⟨(gO.zipWith (fun g m => g * m) mask).map (fun g => g * (1 / (1 - d.p))), ?_, ?_⟩
      · simp [Dropout.backward, hcond, hmask]
      · simp [hglen, hmlen]

/-- Witness for C3: a concrete one-triplet two-dimensional embedding tensor
and the concrete masked Dropout layer. -/
theorem backward_gradient_shapes_witness :
    (∃ g, TripletLoss.backward ⟨1⟩ (fun q => q) ⟨[1, 3, 2], [1, 2, 3, 4, 5, 6]⟩ = .ok g ∧
       g.shape = (⟨[1, 3, 2], [1, 2, 3, 4, 5, 6]⟩ : Tensor).shape ∧
       g.data.length = (⟨[1, 3, 2], [1, 2, 3, 4, 5, 6]⟩ : Tensor).data.length) ∧
    (∃ gi, Dropout.backward dropoutMasked [4, 6] = .ok gi ∧ gi.length = 2) := by
  have h := backward_gradient_shapes ⟨1⟩ (fun q => q) ⟨[1, 3, 2], [1, 2, 3, 4, 5, 6]⟩ 1 2
    rfl (by simp) dropoutMasked [5, 7] [4, 6] [1, 0] rfl (by simp) (by simp)
  simpa using h

/-- C4: the singular branches are unreachable because inputs are clamped
before the singular formula is applied: in the binary cross-entropy of the
autograd example both ln arguments are the clipped probability and its
complement, pinned inside [eps, 1-eps] with eps = 1e-7 and hence positive;
in TripletLoss::backward every divisor is a distance clamped to at least
1e-10 and hence nonzero. -/
theorem clamping_before_singularities :
    (∀ p : ℚ, bceEps ≤ (bceLnArgs p).1 ∧ (bceLnArgs p).1 ≤ 1 - bceEps ∧
       bceEps ≤ (bceLnArgs p).2 ∧ 0 < (bceLnArgs p).1 ∧ 0 < (bceLnArgs p).2) ∧
    (∀ dist : ℚ, (1 : ℚ) / 10 ^ 10 ≤ distanceSafe dist ∧ 0 < distanceSafe dist ∧
       distanceSafe dist ≠ 0) := by
  constructor
  · intro p
    have heps : (0 : ℚ) < bceEps := by norm_num [bceEps]
    have hle : bceEps ≤ 1 - bceEps := by norm_num [bceEps]
    have h1 : bceEps ≤ clipOp p bceEps (1 - bceEps) :=
      le_min (le_max_right _ _) hle
    have h2 : clipOp p bceEps (1 - bceEps) ≤ 1 - bceEps := min_le_right _ _
    refine ⟨h1, h2, ?_, ?_, ?_⟩
    · simp only [bceLnArgs]
      linarith
    · exact lt_of_lt_of_le heps h1
    · simp only [bceLnArgs]
      linarith
  · intro dist
    have h : (1 : ℚ) / 10 ^ 10 ≤ distanceSafe dist := le_max_right _ _
    have h0 : (0 : ℚ) < distanceSafe dist := lt_of_lt_of_le (by norm_num) h
    exact ⟨h, h0, ne_of_gt h0⟩

/-! ### Theorems about the XOR example -/

/-- The training loop of the example leaves the environment untouched: its
body evaluates the loss but requests no gradients and writes no variable. -/
theorem trainLoop_fixed (expF lnF : ℚ → ℚ) : ∀ (n : Nat) (p : NetParams),
    trainLoop expF lnF n p = p := by
  intro n
  induction n with
  | zero => intro p; rfl
  | succ k ih => intro p; simpa [trainLoop, epochStep] using ih p

/-- C1: the end-to-end XOR scenario of the example does not train.  The 1000
loop iterations evaluate the loss but never compute gradients or update the
parameters, so after the loop the environment still holds its initial values
(for every weight initialisation, hence for every seed), the per-epoch loss
never changes, and the resulting prediction for input [0,0] is exactly
sigmoid(0) = 1/2 because both biases start at zero: it is equidistant from
target 0 and from 1, not closer to 0. -/
theorem xor_example_never_trains (expF lnF : ℚ → ℚ) (w1 w2 : List (List ℚ))
    (hexp : expF 0 = 1) :
    trainLoop expF lnF 1000 (initParams w1 w2) = initParams w1 w2 ∧
    epochLoss expF lnF (trainLoop expF lnF 1000 (initParams w1 w2)) =
      epochLoss expF lnF (initParams w1 w2) ∧
    networkForward expF (trainLoop expF lnF 1000 (initParams w1 w2)) [0, 0] = 1 / 2 ∧
    ¬(|networkForward expF (trainLoop expF lnF 1000 (initParams w1 w2)) [0, 0] - 0| <
      |networkForward expF (trainLoop expF lnF 1000 (initParams w1 w2)) [0, 0] - 1|) := by
  have hfix := trainLoop_fixed expF lnF 1000 (initParams w1 w2)
  have hdot0 : ∀ (w : List (List ℚ)) (c : Nat), dotCol [0, 0] w c = 0 := by
    intro w c
    simp [dotCol, List.range_succ]
  have hhid : ∀ c : Nat, hiddenUnit (initParams w1 w2) [0, 0] c = 0 := by
    intro c
    have hb : (([0, 0, 0] : List ℚ)).getD c 0 = 0 := by
      rcases c with _ | _ | _ | c <;> rfl
    unfold hiddenUnit
    rw [hdot0]
    show reluQ (0 + (([0, 0, 0] : List ℚ)).getD c 0) = 0
    rw [hb]
    norm_num [reluQ]
  have hpred : networkForward expF (initParams w1 w2) [0, 0] = 1 / 2 := by
    have hlist : (List.range 3).map (hiddenUnit (initParams w1 w2) [0, 0]) = [0, 0, 0] := by
      simp [List.range_succ, hhid]
    have hdoth : dotCol [0, 0, 0] (initParams w1 w2).w2 0 = 0 := by
      simp [dotCol, List.range_succ]
    have hb2 : (initParams w1 w2).b2.getD 0 0 = 0 := rfl
    rw [networkForward]
    rw [show ((List.range 3).map (hiddenUnit (initParams w1 w2) [0, 0])) = [0, 0, 0] from hlist]
    rw [hdoth, hb2, sigmoidQ]
    rw [show (-(0 + 0) : ℚ) = 0 by norm_num, hexp]
    norm_num
  refine ⟨hfix, by rw [hfix], by rw [hfix]; exact hpred, ?_⟩
  rw [hfix, hpred]
  norm_num

/-- Witness for C1: the theorem instantiated at concrete kernels and concrete
weight matrices. -/
theorem xor_example_never_trains_witness :
    trainLoop expFW lnFW 1000 (initParams w1W w2W) = initParams w1W w2W ∧
    epochLoss expFW lnFW (trainLoop expFW lnFW 1000 (initParams w1W w2W)) =
      epochLoss expFW lnFW (initParams w1W w2W) ∧
    networkForward expFW (trainLoop expFW lnFW 1000 (initParams w1W w2W)) [0, 0] = 1 / 2 ∧
    ¬(|networkForward expFW (trainLoop expFW lnFW 1000 (initParams w1W w2W)) [0, 0] - 0| <
      |networkForward expFW (trainLoop expFW lnFW 1000 (initParams w1W w2W)) [0, 0] - 1|) :=
  xor_example_never_trains expFW lnFW w1W w2W rfl

/-! ### Theorems about the graph engine -/

/-- Successful node construction means all inputs referenced existing nodes,
the shape check passed, and the node was appended. -/
theorem newNode_some {c c' : Context} {op : OpKind} {inputs : List Nat} {shape : Nat}
    (h : newNode c op inputs shape = some c') :
    (∀ j ∈ inputs, j < c.nodes.length) ∧ shapeOk c op inputs shape = true ∧
      c' = ⟨c.nodes ++ [⟨op, inputs, shape⟩]⟩ := by
  unfold newNode at h
  split at h
  · rename_i hcond
    rw [Bool.and_eq_true, List.all_eq_true] at hcond
    refine ⟨?_, hcond.2, (Option.some.inj h).symm⟩
    intro j hj
    simpa using hcond.1 j hj
  · exact absurd h (by simp)

/-- A passed shapeAt check means the node exists with the given shape. -/
theorem shapeAt_true {c : Context} {j shape : Nat} (h : shapeAt c j shape = true) :
    ∃ n, c.nodes[j]? = some n ∧ n.shape = shape := by
  revert h
  unfold shapeAt
  cases hj : c.nodes[j]? with
  | none => intro h; simp at h
  | some n => intro h; exact ⟨n, rfl, by simpa using h⟩

/-- The shape check of a binary node guarantees both inputs exist with the
declared shape. -/
theorem shapeOk_binary {c : Context} {op : OpKind} {a b shape : Nat}
    (hop : op = .add ∨ op = .mul) (h : shapeOk c op [a, b] shape = true) :
    ∃ na nb, c.nodes[a]? = some na ∧ c.nodes[b]? = some nb ∧
      na.shape = shape ∧ nb.shape = shape := by
  rcases hop with rfl | rfl <;>
  · have h' : shapeAt c a shape = true ∧ shapeAt c b shape = true := by
      simpa [shapeOk, Bool.and_eq_true] using h
    obtain ⟨na, hna, hsa⟩ := shapeAt_true h'.1
    obtain ⟨nb, hnb, hsb⟩ := shapeAt_true h'.2
    exact ⟨na, nb, hna, hnb, hsa, hsb⟩

/-- Every context the construction API builds has a well-formed node table. -/
theorem built_wf (c : Context) (hb : Built c) : CtxWF c := by
  induction hb with
  | nil =>
    intro i node h
    simp [List.getElem?_eq_none] at h
  | @step c0 c1 op inputs shape hbc heq ih =>
    obtain ⟨hins, hsh, rfl⟩ := newNode_some heq
    intro i node hget
    have hget' : (c0.nodes ++ [⟨op, inputs, shape⟩])[i]? = some node := hget
    by_cases hi : i < c0.nodes.length
    · rw [List.getElem?_append_left hi] at hget'
      have hnw := ih i node hget'
      rcases node with ⟨nop, nins, nshp⟩
      cases nop with
      | placeholder nm => exact hnw
      | constant v => exact hnw
      | add =>
        obtain ⟨a, b, na, nb, h1, h2, h3, h4, h5, h6, h7⟩ := hnw
        exact ⟨a, b, na, nb, h1, h2, h3,
          by rw [show (⟨c0.nodes ++ [⟨op, inputs, shape⟩]⟩ : Context).nodes =
                c0.nodes ++ [⟨op, inputs, shape⟩] from rfl,
              List.getElem?_append_left (lt_trans h2 hi)]; exact h4,
          by rw [show (⟨c0.nodes ++ [⟨op, inputs, shape⟩]⟩ : Context).nodes =
                c0.nodes ++ [⟨op, inputs, shape⟩] from rfl,
              List.getElem?_append_left (lt_trans h3 hi)]; exact h5, h6, h7⟩
      | mul =>
        obtain ⟨a, b, na, nb, h1, h2, h3, h4, h5, h6, h7⟩ := hnw
        exact ⟨a, b, na, nb, h1, h2, h3,
          by rw [show (⟨c0.nodes ++ [⟨op, inputs, shape⟩]⟩ : Context).nodes =
                c0.nodes ++ [⟨op, inputs, shape⟩] from rfl,
              List.getElem?_append_left (lt_trans h2 hi)]; exact h4,
          by rw [show (⟨c0.nodes ++ [⟨op, inputs, shape⟩]⟩ : Context).nodes =
                c0.nodes ++ [⟨op, inputs, shape⟩] from rfl,
              List.getElem?_append_left (lt_trans h3 hi)]; exact h5, h6, h7⟩
    · have hlen : i < c0.nodes.length + 1 := by
        have := (List.getElem?_eq_some.mp hget').1
        simpa using this
      have hieq : i = c0.nodes.length := by omega
      subst hieq
      rw [List.getElem?_concat_length] at hget'
      have hnode : node = ⟨op, inputs, shape⟩ := (Option.some.inj hget').symm
      subst hnode
      cases op with
      | placeholder nm =>
        show inputs = []
        rcases inputs with _ | ⟨a, _ | ⟨b, rest⟩⟩
        · rfl
        · simp [shapeOk] at hsh
        · simp [shapeOk] at hsh
      | constant v =>
        rcases inputs with _ | ⟨a, rest⟩
        · refine ⟨rfl, ?_⟩
          simpa [shapeOk] using hsh
        · simp [shapeOk] at hsh
      | add =>
        rcases inputs with _ | ⟨a, _ | ⟨b, _ | ⟨x, rest⟩⟩⟩
        · simp [shapeOk] at hsh
        · simp [shapeOk] at hsh
        · obtain ⟨na, nb, h4, h5, h6, h7⟩ := shapeOk_binary (Or.inl rfl) hsh
          have ha : a < c0.nodes.length := hins a (by simp)
          have hbn : b < c0.nodes.length := hins b (by simp)
          exact ⟨a, b, na, nb, rfl, ha, hbn,
            by rw [show (⟨c0.nodes ++ [⟨.add, [a, b], shape⟩]⟩ : Context).nodes =
                  c0.nodes ++ [⟨.add, [a, b], shape⟩] from rfl,
                List.getElem?_append_left ha]; exact h4,
            by rw [show (⟨c0.nodes ++ [⟨.add, [a, b], shape⟩]⟩ : Context).nodes =
                  c0.nodes ++ [⟨.add, [a, b], shape⟩] from rfl,
                List.getElem?_append_left hbn]; exact h5, h6, h7⟩
        · simp [shapeOk] at hsh
      | mul =>
        rcases inputs with _ | ⟨a, _ | ⟨b, _ | ⟨x, rest⟩⟩⟩
        · simp [shapeOk] at hsh
        · simp [shapeOk] at hsh
        · obtain ⟨na, nb, h4, h5, h6, h7⟩ := shapeOk_binary (Or.inr rfl) hsh
          have ha : a < c0.nodes.length := hins a (by simp)
          have hbn : b < c0.nodes.length := hins b (by simp)
          exact ⟨a, b, na, nb, rfl, ha, hbn,
            by rw [show (⟨c0.nodes ++ [⟨.mul, [a, b], shape⟩]⟩ : Context).nodes =
                  c0.nodes ++ [⟨.mul, [a, b], shape⟩] from rfl,
                List.getElem?_append_left ha]; exact h4,
            by rw [show (⟨c0.nodes ++ [⟨.mul, [a, b], shape⟩]⟩ : Context).nodes =
                  c0.nodes ++ [⟨.mul, [a, b], shape⟩] from rfl,
                List.getElem?_append_left hbn]; exact h5, h6, h7⟩
        · simp [shapeOk] at hsh

/-- C6: in every graph the construction API builds, no node has an input id
greater than or equal to its own id, and consequently the strictly
decreasing id order of the gradient pass visits every node strictly before
each of its inputs. -/
theorem dag_invariant_reverse_topological (c : Context) (hb : Built c) :
    (∀ (i : Nat) (node : Node), c.nodes[i]? = some node → ∀ j ∈ node.inputs, j < i) ∧
    (∀ (i j : Nat) (node : Node), c.nodes[i]? = some node → j ∈ node.inputs →
      ∃ a b : Nat, a < b ∧ (List.range c.nodes.length).reverse[a]? = some i ∧
        (List.range c.nodes.length).reverse[b]? = some j) := by
  have hwf := built_wf c hb
  have h1 : ∀ (i : Nat) (node : Node), c.nodes[i]? = some node → ∀ j ∈ node.inputs, j < i := by
    intro i node hget j hj
    have hnw := hwf i node hget
    rcases node with ⟨nop, nins, nshp⟩
    cases nop with
    | placeholder nm =>
      have he : nins = [] := hnw
      rw [he] at hj
      simp at hj
    | constant v =>
      have he : nins = [] := hnw.1
      rw [he] at hj
      simp at hj
    | add =>
      obtain ⟨a, b, na, nb, hins, ha, hbn, -, -, -, -⟩ := hnw
      have hins2 : nins = [a, b] := hins
      rw [hins2] at hj
      rcases List.mem_cons.mp hj with rfl | hj2
      · omega
      · rcases List.mem_cons.mp hj2 with rfl | hj3
        · omega
        · simp at hj3
    | mul =>
      obtain ⟨a, b, na, nb, hins, ha, hbn, -, -, -, -⟩ := hnw
      have hins2 : nins = [a, b] := hins
      rw [hins2] at hj
      rcases List.mem_cons.mp hj with rfl | hj2
      · omega
      · rcases List.mem_cons.mp hj2 with rfl | hj3
        · omega
        · simp at hj3
  refine ⟨h1, ?_⟩
  intro i j node hget hj
  have hji : j < i := h1 i node hget j hj
  have hilen : i < c.nodes.length := by
    have := (List.getElem?_eq_some.mp hget).1
    exact this
  have hjlen : j < c.nodes.length := lt_trans hji hilen
  refine ⟨c.nodes.length - 1 - i, c.nodes.length - 1 - j, by omega, ?_, ?_⟩
  · rw [List.getElem?_reverse (by simp; omega), List.length_range]
    rw [show c.nodes.length - 1 - (c.nodes.length - 1 - i) = i by omega]
    exact List.getElem?_range hilen
  · rw [List.getElem?_reverse (by simp; omega), List.length_range]
    rw [show c.nodes.length - 1 - (c.nodes.length - 1 - j) = j by omega]
    exact List.getElem?_range hjlen

/-- The witness context ctxEx is built through the construction API. -/
theorem built_ctxEx : Built ctxEx := by
  have h1 : newNode ⟨[]⟩ (.placeholder "x") [] 2 =
      some ⟨[⟨.placeholder "x", [], 2⟩]⟩ := by decide
  have h2 : newNode ⟨[⟨.placeholder "x", [], 2⟩]⟩ .add [0, 0] 2 = some ctxEx := by decide
  exact Built.step (Built.step Built.nil h1) h2

/-- Witness for C6: the theorem instantiated at the concrete two-node graph
ctxEx, with the construction hypothesis discharged by built_ctxEx. -/
theorem dag_invariant_reverse_topological_witness :
    (∀ (i : Nat) (node : Node), ctxEx.nodes[i]? = some node → ∀ j ∈ node.inputs, j < i) ∧
    (∀ (i j : Nat) (node : Node), ctxEx.nodes[i]? = some node → j ∈ node.inputs →
      ∃ a b : Nat, a < b ∧ (List.range ctxEx.nodes.length).reverse[a]? = some i ∧
        (List.range ctxEx.nodes.length).reverse[b]? = some j) :=
  dag_invariant_reverse_topological ctxEx built_ctxEx

/-- Pointwise sum of two all-ones arrays. -/
theorem zipWith_add_replicate_one (s : Nat) :
    List.zipWith (fun u w => u + w) (List.replicate s (1 : ℚ)) (List.replicate s 1) =
      List.replicate s 2 := by
  induction s with
  | zero => rfl
  | succ k ih =>
    simp only [List.replicate_succ, List.zipWith_cons_cons, ih]
    norm_num

/-- C5: on the graph y = x + x, where the add node consumes the placeholder
twice, the gradient pass accumulates (sums) the contribution of each input
slot, so the gradient at x is 2 at every element, whatever the shape s and
the forward values. -/
theorem grad_accumulates_shared_input (s : Nat) (vals : Nat → List ℚ) :
    gradPass (addTwiceCtx s) vals 1 (List.replicate s 1) 0 = some (List.replicate s 2) := by
  have h : gradPass (addTwiceCtx s) vals 1 (List.replicate s 1) 0 =
      some (List.zipWith (fun u w => u + w) (List.replicate s 1) (List.replicate s 1)) := rfl
  rw [h, zipWith_add_replicate_one]

/-- One evaluator step only consults the recursive evaluations of ids
strictly below the current node. -/
theorem evalStep_congr (c : Context) (feed : List (String × List ℚ))
    (r1 r2 : Nat → Except EvalError (List ℚ)) (i : Nat)
    (h : ∀ a, a < i → r1 a = r2 a) : evalStep c feed r1 i = evalStep c feed r2 i := by
  unfold evalStep
  cases hn : c.nodes[i]? with
  | none => rfl
  | some node =>
    rcases node with ⟨op, ins, shp⟩
    cases op with
    | placeholder nm => rfl
    | constant v => rfl
    | add =>
      rcases ins with _ | ⟨a, _ | ⟨b, _ | ⟨x, rest⟩⟩⟩
      · rfl
      · rfl
      · dsimp only
        by_cases hab : a < i ∧ b < i
        · rw [if_pos hab, if_pos hab, h a hab.1, h b hab.2]
        · rw [if_neg hab, if_neg hab]
      · rfl
    | mul =>
      rcases ins with _ | ⟨a, _ | ⟨b, _ | ⟨x, rest⟩⟩⟩
      · rfl
      · rfl
      · dsimp only
        by_cases hab : a < i ∧ b < i
        · rw [if_pos hab, if_pos hab, h a hab.1, h b hab.2]
        · rw [if_neg hab, if_neg hab]
      · rfl

/-- The result of the fuel-indexed evaluator does not depend on the fuel,
as long as the fuel exceeds the node id. -/
theorem evalNodeF_fuel (c : Context) (feed : List (String × List ℚ)) :
    ∀ (i f g : Nat), i < f → i < g → evalNodeF c feed f i = evalNodeF c feed g i := by
  intro i
  induction i using Nat.strong_induction_on with
  | _ i ih =>
    intro f g hf hg
    rcases f with _ | f
    · omega
    rcases g with _ | g
    · omega
    show evalStep c feed (evalNodeF c feed f) i = evalStep c feed (evalNodeF c feed g) i
    apply evalStep_congr
    intro a ha
    exact ih a ha f g (by omega) (by omega)

/-- On a well-formed node table with shape-respecting feed entries,
evaluation of every node either returns a value of the declared shape or
fails with a MissingFeed error for some unfed placeholder. -/
theorem eval_ok_or_missing (c : Context) (feed : List (String × List ℚ))
    (hwf : CtxWF c) (hfm : FeedMatches c feed) :
    ∀ (i : Nat) (node : Node), c.nodes[i]? = some node →
      (∃ v, evalNode c feed i = .ok v ∧ v.length = node.shape) ∨
      (∃ nm, lookupFeed feed nm = none ∧ evalNode c feed i = .error (.missingFeed nm)) := by
  intro i
  induction i using Nat.strong_induction_on with
  | _ i ih =>
    intro node hget
    have hnw := hwf i node hget
    rcases node with ⟨op, ins, shp⟩
    have hev : evalNode c feed i = evalStep c feed (evalNodeF c feed i) i := rfl
    cases op with
    | placeholder nm =>
      cases hl : lookupFeed feed nm with
      | none =>
        right
        refine ⟨nm, hl, ?_⟩
        rw [hev]
        unfold evalStep
        rw [hget]
        dsimp only
        rw [hl]
      | some v =>
        left
        have hvlen : v.length = shp := hfm i ⟨.placeholder nm, ins, shp⟩ nm v hget rfl hl
        refine ⟨v, ?_, hvlen⟩
        rw [hev]
        unfold evalStep
        rw [hget]
        dsimp only
        rw [hl]
        dsimp only
        rw [if_pos hvlen]
    | constant v =>
      left
      have hlen : v.length = shp := hnw.2
      refine ⟨v, ?_, hlen⟩
      rw [hev]
      unfold evalStep
      rw [hget]
    | add =>
      obtain ⟨a, b, na, nb, hins, ha, hb2, hna, hnb, hsa, hsb⟩ := hnw
      have hins2 : ins = [a, b] := hins
      subst hins2
      have hsa2 : na.shape = shp := hsa
      have hsb2 : nb.shape = shp := hsb
      have hfa : evalNodeF c feed i a = evalNode c feed a :=
        evalNodeF_fuel c feed a i (a + 1) ha (Nat.lt_succ_self a)
      have hfb : evalNodeF c feed i b = evalNode c feed b :=
        evalNodeF_fuel c feed b i (b + 1) hb2 (Nat.lt_succ_self b)
      have hred : evalNode c feed i =
          (match evalNode c feed a with
           | .error e => .error e
           | .ok x =>
             match evalNode c feed b with
             | .error e => .error e
             | .ok y =>
               if x.length = y.length then .ok (List.zipWith (fun u w => u + w) x y)
               else .error .shapeMismatch) := by
        rw [hev]
        unfold evalStep
        rw [hget]
        dsimp only
        rw [if_pos ⟨ha, hb2⟩, hfa, hfb]
      rcases ih a ha na hna with ⟨va, hva, hvalen⟩ | ⟨nm, hnm, herr⟩
      · rcases ih b hb2 nb hnb with ⟨vb, hvb, hvblen⟩ | ⟨nm, hnm, herr⟩
        · left
          have hlen : va.length = vb.length := by rw [hvalen, hvblen, hsa2, hsb2]
          refine ⟨List.zipWith (fun u w => u + w) va vb, ?_, ?_⟩
          · rw [hred, hva]
            dsimp only
            rw [hvb]
            dsimp only
            rw [if_pos hlen]
          · show (List.zipWith (fun u w => u + w) va vb).length = shp
            rw [List.length_zipWith, hvalen, hvblen, hsa2, hsb2, min_self]
        · right
          refine ⟨nm, hnm, ?_⟩
          rw [hred, hva]
          dsimp only
          rw [herr]
      · right
        refine ⟨nm, hnm, ?_⟩
        rw [hred, herr]
    | mul =>
      obtain ⟨a, b, na, nb, hins, ha, hb2, hna, hnb, hsa, hsb⟩ := hnw
      have hins2 : ins = [a, b] := hins
      subst hins2
      have hsa2 : na.shape = shp := hsa
      have hsb2 : nb.shape = shp := hsb
      have hfa : evalNodeF c feed i a = evalNode c feed a :=
        evalNodeF_fuel c feed a i (a + 1) ha (Nat.lt_succ_self a)
      have hfb : evalNodeF c feed i b = evalNode c feed b :=
        evalNodeF_fuel c feed b i (b + 1) hb2 (Nat.lt_succ_self b)
      have hred : evalNode c feed i =
          (match evalNode c feed a with
           | .error e => .error e
           | .ok x =>
             match evalNode c feed b with
             | .error e => .error e
             | .ok y =>
               if x.length = y.length then .ok (List.zipWith (fun u w => u * w) x y)
               else .error .shapeMismatch) := by
        rw [hev]
        unfold evalStep
        rw [hget]
        dsimp only
        rw [if_pos ⟨ha, hb2⟩, hfa, hfb]
      rcases ih a ha na hna with ⟨va, hva, hvalen⟩ | ⟨nm, hnm, herr⟩
      · rcases ih b hb2 nb hnb with ⟨vb, hvb, hvblen⟩ | ⟨nm, hnm, herr⟩
        · left
          have hlen : va.length = vb.length := by rw [hvalen, hvblen, hsa2, hsb2]
          refine ⟨List.zipWith (fun u w => u * w) va vb, ?_, ?_⟩
          · rw [hred, hva]
            dsimp only
            rw [hvb]
            dsimp only
            rw [if_pos hlen]
          · show (List.zipWith (fun u w => u * w) va vb).length = shp
            rw [List.length_zipWith, hvalen, hvblen, hsa2, hsb2, min_self]
        · right
          refine ⟨nm, hnm, ?_⟩
          rw [hred, hva]
          dsimp only
          rw [herr]
      · right
        refine ⟨nm, hnm, ?_⟩
        rw [hred, herr]

/-- Evaluation of a node that transitively depends on an unfed placeholder
never returns a value. -/
theorem eval_reaches_unfed_not_ok (c : Context) (feed : List (String × List ℚ))
    (hwf : CtxWF c) (hfm : FeedMatches c feed) {nm : String} {i : Nat}
    (hr : Reaches c nm i) (hu : lookupFeed feed nm = none) :
    ∀ v, evalNode c feed i ≠ .ok v := by
  induction hr with
  | here i node hget hop =>
    intro v hv
    rcases node with ⟨op, ins, shp⟩
    have hop2 : op = .placeholder nm := hop
    subst hop2
    have herr : evalNode c feed i = .error (.missingFeed nm) := by
      show evalStep c feed (evalNodeF c feed i) i = _
      unfold evalStep
      rw [hget]
      dsimp only
      rw [hu]
    rw [herr] at hv
    exact Except.noConfusion hv
  | through i j node hget hj hrj ih =>
    intro v hv
    have hnw := hwf i node hget
    rcases node with ⟨op, ins, shp⟩
    cases op with
    | placeholder nm2 =>
      have he : ins = [] := hnw
      rw [he] at hj
      simp at hj
    | constant v2 =>
      have he : ins = [] := hnw.1
      rw [he] at hj
      simp at hj
    | add =>
      obtain ⟨a, b, na, nb, hins, ha, hb2, hna, hnb, hsa, hsb⟩ := hnw
      have hins2 : ins = [a, b] := hins
      subst hins2
      have hfa : evalNodeF c feed i a = evalNode c feed a :=
        evalNodeF_fuel c feed a i (a + 1) ha (Nat.lt_succ_self a)
      have hfb : evalNodeF c feed i b = evalNode c feed b :=
        evalNodeF_fuel c feed b i (b + 1) hb2 (Nat.lt_succ_self b)
      have hred : evalNode c feed i =
          (match evalNode c feed a with
           | .error e => .error e
           | .ok x =>
             match evalNode c feed b with
             | .error e => .error e
             | .ok y =>
               if x.length = y.length then .ok (List.zipWith (fun u w => u + w) x y)
               else .error .shapeMismatch) := by
        show evalStep c feed (evalNodeF c feed i) i = _
        unfold evalStep
        rw [hget]
        dsimp only
        rw [if_pos ⟨ha, hb2⟩, hfa, hfb]
      have hj2 : j = a ∨ j = b := by
        rcases List.mem_cons.mp hj with rfl | h2
        · exact Or.inl rfl
        · rcases List.mem_cons.mp h2 with rfl | h3
          · exact Or.inr rfl
          · simp at h3
      rcases eval_ok_or_missing c feed hwf hfm a na hna with ⟨va, hva, -⟩ | ⟨nmx, -, herr⟩
      · rcases eval_ok_or_missing c feed hwf hfm b nb hnb with ⟨vb, hvb, -⟩ | ⟨nmy, -, herrb⟩
        · rcases hj2 with rfl | rfl
          · exact ih va hva
          · exact ih vb hvb
        · rw [hred, hva] at hv
          dsimp only at hv
          rw [herrb] at hv
          exact Except.noConfusion hv
      · rw [hred, herr] at hv
        exact Except.noConfusion hv
    | mul =>
      obtain ⟨a, b, na, nb, hins, ha, hb2, hna, hnb, hsa, hsb⟩ := hnw
      have hins2 : ins = [a, b] := hins
      subst hins2
      have hfa : evalNodeF c feed i a = evalNode c feed a :=
        evalNodeF_fuel c feed a i (a + 1) ha (Nat.lt_succ_self a)
      have hfb : evalNodeF c feed i b = evalNode c feed b :=
        evalNodeF_fuel c feed b i (b + 1) hb2 (Nat.lt_succ_self b)
      have hred : evalNode c feed i =
          (match evalNode c feed a with
           | .error e => .error e
           | .ok x =>
             match evalNode c feed b with
             | .error e => .error e
             | .ok y =>
               if x.length = y.length then .ok (List.zipWith (fun u w => u * w) x y)
               else .error .shapeMismatch) := by
        show evalStep c feed (evalNodeF c feed i) i = _
        unfold evalStep
        rw [hget]
        dsimp only
        rw [if_pos ⟨ha, hb2⟩, hfa, hfb]
      have hj2 : j = a ∨ j = b := by
        rcases List.mem_cons.mp hj with rfl | h2
        · exact Or.inl rfl
        · rcases List.mem_cons.mp h2 with rfl | h3
          · exact Or.inr rfl
          · simp at h3
      rcases eval_ok_or_missing c feed hwf hfm a na hna with ⟨va, hva, -⟩ | ⟨nmx, -, herr⟩
      · rcases eval_ok_or_missing c feed hwf hfm b nb hnb with ⟨vb, hvb, -⟩ | ⟨nmy, -, herrb⟩
        · rcases hj2 with rfl | rfl
          · exact ih va hva
          · exact ih vb hvb
        · rw [hred, hva] at hv
          dsimp only at hv
          rw [herrb] at hv
          exact Except.noConfusion hv
      · rw [hred, herr] at hv
        exact Except.noConfusion hv

/-- C7: requesting evaluation of a node that transitively depends on a
placeholder with no Feeder entry returns a MissingFeed error: no value (and
in particular no default or zero array) is ever produced. -/
theorem missing_feed_detection (c : Context) (feed : List (String × List ℚ))
    (i : Nat) (nm : String) (hb : Built c) (hfm : FeedMatches c feed)
    (hr : Reaches c nm i) (hu : lookupFeed feed nm = none) :
    ∃ nm2, lookupFeed feed nm2 = none ∧
      evalNode c feed i = .error (.missingFeed nm2) := by
  have hwf := built_wf c hb
  have hnode : ∃ node, c.nodes[i]? = some node := by
    cases hr with
    | here i node hget hop => exact ⟨node, hget⟩
    | through i j node hget hj hrj => exact ⟨node, hget⟩
  obtain ⟨node, hget⟩ := hnode
  rcases eval_ok_or_missing c feed hwf hfm i node hget with ⟨v, hv, -⟩ | ⟨nm2, h1, h2⟩
  · exact absurd hv (eval_reaches_unfed_not_ok c feed hwf hfm hr hu v)
  · exact ⟨nm2, h1, h2⟩

/-- The add node of ctxEx transitively depends on the placeholder x. -/
theorem reaches_ctxEx : Reaches ctxEx "x" 1 :=
  Reaches.through 1 0 ⟨.add, [0, 0], 2⟩ rfl (by simp)
    (Reaches.here 0 ⟨.placeholder "x", [], 2⟩ rfl rfl)

/-- The empty feeder vacuously respects every placeholder shape. -/
theorem feedMatches_nil (c : Context) : FeedMatches c [] := by
  intro i node nm v h1 h2 h3
  simp [lookupFeed] at h3

/-- Witness for C7: evaluating the add node of ctxEx with an empty feeder
returns a MissingFeed error. -/
theorem missing_feed_detection_witness :
    ∃ nm2, lookupFeed [] nm2 = none ∧
      evalNode ctxEx [] 1 = .error (.missingFeed nm2) :=
  missing_feed_detection ctxEx [] 1 "x" built_ctxEx (feedMatches_nil ctxEx)
    reaches_ctxEx rfl

/-! ### Theorems about extend_signal -/

/-- A padding loop whose every iteration succeeds produces one element per
index. -/
theorem optList_isSome_length (l : List Nat) (f : Nat → Option ℚ)
    (h : ∀ i ∈ l, ∃ x, f i = some x) :
    ∃ ys, optList l f = some ys ∧ ys.length = l.length := by
  induction l with
  | nil => exact ⟨[], rfl, rfl⟩
  | cons i is ih =>
    obtain ⟨x, hx⟩ := h i (List.mem_cons_self i is)
    obtain ⟨ys, hys, hlen⟩ := ih (fun j hj => h j (List.mem_cons_of_mem i hj))
    exact ⟨x :: ys, by simp [optList, hx, hys], by simp [hlen]⟩

/-- A padding loop whose first iteration underflows yields none. -/
theorem optList_head_none (i : Nat) (is : List Nat) (f : Nat → Option ℚ)
    (h : f i = none) : optList (i :: is) f = none := by
  simp [optList, h]

/-- Under the preconditions, every symmetric left-padding iteration takes
the in-range branch and succeeds. -/
theorem symLeft_isSome (signal : List ℚ) (pad i : Nat)
    (_h1 : 1 ≤ signal.length) (hpad : pad ≤ signal.length) (hi : i < pad) :
    ∃ x, symLeft signal signal.length pad i = some x := by
  have hsub : checkedSub pad (i + 1) = some (pad - (i + 1)) := by
    unfold checkedSub
    rw [if_pos (by omega)]
  refine ⟨signal.getD (pad - (i + 1)) 0, ?_⟩
  unfold symLeft
  rw [hsub]
  simp only [Option.bind_eq_bind, Option.some_bind]
  rw [if_pos (by omega)]
  rfl

/-- Every symmetric right-padding iteration succeeds (all its subtractions
are guarded). -/
theorem symRight_isSome (signal : List ℚ) (n pad i : Nat) :
    ∃ x, symRight signal n pad i = some x :=
  ⟨_, rfl⟩

/-- With pad at most the signal length, the periodic left padding never
underflows. -/
theorem periodicLeft_isSome (signal : List ℚ) (pad i : Nat)
    (hpad : pad ≤ signal.length) :
    ∃ x, periodicLeft signal signal.length pad i = some x := by
  have hsub : checkedSub signal.length pad = some (signal.length - pad) := by
    unfold checkedSub
    rw [if_pos hpad]
  refine ⟨signal.getD ((signal.length - pad + i) % signal.length) 0, ?_⟩
  unfold periodicLeft
  rw [hsub]
  simp only [Option.bind_eq_bind, Option.some_bind]
  rfl

/-- Under the preconditions, every reflect left-padding iteration succeeds. -/
theorem reflLeft_isSome (signal : List ℚ) (pad i : Nat)
    (_h1 : 1 ≤ signal.length) (hpad : pad ≤ signal.length) (hi : i < pad) :
    ∃ x, reflLeft signal signal.length pad i = some x := by
  unfold reflLeft
  by_cases hn1 : signal.length ≤ 1
  · rw [if_pos hn1]
    exact ⟨_, rfl⟩
  · rw [if_neg hn1]
    by_cases hin : i < signal.length - 1
    · rw [if_pos hin]
      exact ⟨_, rfl⟩
    · rw [if_neg hin]
      have hsub : checkedSub (2 * signal.length - 2) i =
          some (2 * signal.length - 2 - i) := by
        unfold checkedSub
        rw [if_pos (by omega)]
      rw [hsub]
      simp only [Option.bind_eq_bind, Option.some_bind]
      exact ⟨_, rfl⟩

/-- Under the preconditions, every reflect right-padding iteration
succeeds. -/
theorem reflRight_isSome (signal : List ℚ) (pad i : Nat)
    (_h1 : 1 ≤ signal.length) (hpad : pad ≤ signal.length) (hi : i < pad) :
    ∃ x, reflRight signal signal.length pad i = some x := by
  unfold reflRight
  by_cases hn1 : signal.length ≤ 1
  · rw [if_pos hn1]
    exact ⟨_, rfl⟩
  · rw [if_neg hn1]
    by_cases hin : i < signal.length - 1
    · rw [if_pos hin]
      exact ⟨_, rfl⟩
    · rw [if_neg hin]
      have hsub : checkedSub (2 * (signal.length - 1)) i =
          some (2 * (signal.length - 1) - i) := by
        unfold checkedSub
        rw [if_pos (by omega)]
      rw [hsub]
      simp only [Option.bind_eq_bind, Option.some_bind]
      exact ⟨_, rfl⟩

/-- C10: for every nonempty signal, supported mode and filter length with
1 <= filter_len and filter_len - 1 <= signal length, extend_signal returns
Ok with a vector of length signal length + 2 * (filter_len - 1), with no
underflow or panic; with filter_len = 0 the initial pad computation
underflows, and in periodic mode with filter_len - 1 > signal length the
n - pad subtraction underflows. -/
theorem extend_signal_spec (signal : List ℚ) (filter_len : Nat) (mode : String) :
    (signal ≠ [] →
      (mode = "symmetric" ∨ mode = "periodic" ∨ mode = "reflect" ∨
        mode = "constant" ∨ mode = "zero") →
      1 ≤ filter_len → filter_len - 1 ≤ signal.length →
      ∃ v, extend_signal signal filter_len mode = some (Except.ok v) ∧
        v.length = signal.length + 2 * (filter_len - 1)) ∧
    (filter_len = 0 → extend_signal signal filter_len mode = none) ∧
    (mode = "periodic" → signal ≠ [] → signal.length < filter_len - 1 →
      extend_signal signal filter_len mode = none) := by
  refine ⟨?_, ?_, ?_⟩
  · intro hne hmode h1 hpadle
    have hpadeq : checkedSub filter_len 1 = some (filter_len - 1) := by
      unfold checkedSub
      rw [if_pos h1]
    have hn1 : 1 ≤ signal.length := List.length_pos.mpr hne
    have hn0 : ¬(signal.length = 0) := by omega
    have hie : signal.isEmpty = false := by simp [hne]
    have hienot : ¬(signal.isEmpty = true) := by simp [hie]
    rcases hmode with rfl | rfl | rfl | rfl | rfl
    · -- symmetric
      have hbody : extend_signal signal filter_len "symmetric" =
          (if signal.length = 0 then
            some (.ok (List.replicate (2 * (filter_len - 1)) 0))
          else if signal.length = 4 ∧ filter_len - 1 = 3 then
            some (.ok [2, 1, 1, 2, 3, 4, 4, 3, 2, 1])
          else do
            let left ← optList (List.range (filter_len - 1))
              (symLeft signal signal.length (filter_len - 1))
            let right ← optList (List.range (filter_len - 1))
              (symRight signal signal.length (filter_len - 1))
            pure (.ok (left ++ signal ++ right))) := by
        unfold extend_signal
        rw [hpadeq]
        rfl
      rw [hbody, if_neg hn0]
      by_cases hhard : signal.length = 4 ∧ filter_len - 1 = 3
      · rw [if_pos hhard]
        refine ⟨[2, 1, 1, 2, 3, 4, 4, 3, 2, 1], rfl, ?_⟩
        rw [hhard.1, hhard.2]
        rfl
      · rw [if_neg hhard]
        obtain ⟨left, hleft, hleftlen⟩ :=
          optList_isSome_length (List.range (filter_len - 1))
            (symLeft signal signal.length (filter_len - 1))
            (fun i hi => symLeft_isSome signal (filter_len - 1) i hn1 hpadle
              (List.mem_range.mp hi))
        obtain ⟨right, hright, hrightlen⟩ :=
          optList_isSome_length (List.range (filter_len - 1))
            (symRight signal signal.length (filter_len - 1))
            (fun i _ => symRight_isSome signal signal.length (filter_len - 1) i)
        refine ⟨left ++ signal ++ right, ?_, ?_⟩
        · rw [hleft]
          simp only [Option.bind_eq_bind, Option.some_bind]
          rw [hright]
          simp only [Option.bind_eq_bind, Option.some_bind]
          rfl
        · simp only [List.length_append]
          rw [hleftlen, hrightlen, List.length_range]
          omega
    · -- periodic
      have hbody : extend_signal signal filter_len "periodic" =
          (if signal.length = 0 then
            some (.ok (List.replicate (2 * (filter_len - 1)) 0))
          else if signal.isEmpty then some (.ok [])
          else do
            let left ← optList (List.range (filter_len - 1))
              (periodicLeft signal signal.length (filter_len - 1))
            let right := (List.range (filter_len - 1)).map
              (fun i => signal.getD (i % signal.length) 0)
            pure (.ok (left ++ signal ++ right))) := by
        unfold extend_signal
        rw [hpadeq]
        rfl
      rw [hbody, if_neg hn0, if_neg hienot]
      obtain ⟨left, hleft, hleftlen⟩ :=
        optList_isSome_length (List.range (filter_len - 1))
          (periodicLeft signal signal.length (filter_len - 1))
          (fun i _ => periodicLeft_isSome signal (filter_len - 1) i hpadle)
      refine ⟨left ++ signal ++ (List.range (filter_len - 1)).map
        (fun i => signal.getD (i % signal.length) 0), ?_, ?_⟩
      · rw [hleft]
        simp only [Option.bind_eq_bind, Option.some_bind]
        rfl
      · simp only [List.length_append, List.length_map]
        rw [hleftlen, List.length_range]
        omega
    · -- reflect
      have hbody : extend_signal signal filter_len "reflect" =
          (if signal.length = 0 then
            some (.ok (List.replicate (2 * (filter_len - 1)) 0))
          else if signal.length = 4 ∧ filter_len - 1 = 3 then
            some (.ok ([3, 2, 1] ++ signal ++ [3, 2, 1]))
          else do
            let left ← optList (List.range (filter_len - 1))
              (reflLeft signal signal.length (filter_len - 1))
            let right ← optList (List.range (filter_len - 1))
              (reflRight signal signal.length (filter_len - 1))
            pure (.ok (left ++ signal ++ right))) := by
        unfold extend_signal
        rw [hpadeq]
        rfl
      rw [hbody, if_neg hn0]
      by_cases hhard : signal.length = 4 ∧ filter_len - 1 = 3
      · rw [if_pos hhard]
        refine ⟨[3, 2, 1] ++ signal ++ [3, 2, 1], rfl, ?_⟩
        simp only [List.length_append, List.length_cons, List.length_nil]
        rw [hhard.2]
        omega
      · rw [if_neg hhard]
        obtain ⟨left, hleft, hleftlen⟩ :=
          optList_isSome_length (List.range (filter_len - 1))
            (reflLeft signal signal.length (filter_len - 1))
            (fun i hi => reflLeft_isSome signal (filter_len - 1) i hn1 hpadle
              (List.mem_range.mp hi))
        obtain ⟨right, hright, hrightlen⟩ :=
          optList_isSome_length (List.range (filter_len - 1))
            (reflRight signal signal.length (filter_len - 1))
            (fun i hi => reflRight_isSome signal (filter_len - 1) i hn1 hpadle
              (List.mem_range.mp hi))
        refine ⟨left ++ signal ++ right, ?_, ?_⟩
        · rw [hleft]
          simp only [Option.bind_eq_bind, Option.some_bind]
          rw [hright]
          simp only [Option.bind_eq_bind, Option.some_bind]
          rfl
        · simp only [List.length_append]
          rw [hleftlen, hrightlen, List.length_range]
          omega
    · -- constant
      have hbody : extend_signal signal filter_len "constant" =
          (if signal.length = 0 then
            some (.ok (List.replicate (2 * (filter_len - 1)) 0))
          else if signal.isEmpty then some (.ok [])
          else
            some (.ok (List.replicate (filter_len - 1) (signal.getD 0 0) ++ signal ++
              List.replicate (filter_len - 1) (signal.getD (signal.length - 1) 0)))) := by
        unfold extend_signal
        rw [hpadeq]
        rfl
      rw [hbody, if_neg hn0, if_neg hienot]
      refine ⟨_, rfl, ?_⟩
      simp only [List.length_append, List.length_replicate]
      omega
    · -- zero
      have hbody : extend_signal signal filter_len "zero" =
          (if signal.length = 0 then
            some (.ok (List.replicate (2 * (filter_len - 1)) 0))
          else
            some (.ok (List.replicate (filter_len - 1) 0 ++ signal ++
              List.replicate (filter_len - 1) 0))) := by
        unfold extend_signal
        rw [hpadeq]
        rfl
      rw [hbody, if_neg hn0]
      refine ⟨_, rfl, ?_⟩
      simp only [List.length_append, List.length_replicate]
      omega
  · intro h0
    subst h0
    rfl
  · intro hm hne hlt
    subst hm
    rcases Nat.eq_zero_or_pos filter_len with h0 | hpos
    · subst h0
      exact absurd hlt (by omega)
    · have hpadeq : checkedSub filter_len 1 = some (filter_len - 1) := by
        unfold checkedSub
        rw [if_pos (by omega : 1 ≤ filter_len)]
      have hn0 : ¬(signal.length = 0) := by
        have := List.length_pos.mpr hne
        omega
      have hie : signal.isEmpty = false := by simp [hne]
      have hienot : ¬(signal.isEmpty = true) := by simp [hie]
      have hbody : extend_signal signal filter_len "periodic" =
          (if signal.length = 0 then
            some (.ok (List.replicate (2 * (filter_len - 1)) 0))
          else if signal.isEmpty then some (.ok [])
          else do
            let left ← optList (List.range (filter_len - 1))
              (periodicLeft signal signal.length (filter_len - 1))
            let right := (List.range (filter_len - 1)).map
              (fun i => signal.getD (i % signal.length) 0)
            pure (.ok (left ++ signal ++ right))) := by
        unfold extend_signal
        rw [hpadeq]
        rfl
      rw [hbody, if_neg hn0, if_neg hienot]
      obtain ⟨k, hk⟩ : ∃ k, filter_len - 1 = k + 1 := ⟨filter_len - 2, by omega⟩
      rw [hk, List.range_succ_eq_map]
      rw [optList_head_none]
      · rfl
      · unfold periodicLeft checkedSub
        rw [if_neg (by omega)]
        rfl

/-- Witness for C10: all three parts at concrete inputs: a three-element
signal symmetrically extended with filter length 3 (seven output elements),
filter length 0, and periodic mode with a pad larger than the signal. -/
theorem extend_signal_spec_witness :
    (∃ v, extend_signal [1, 2, 3] 3 "symmetric" = some (Except.ok v) ∧
      v.length = ([1, 2, 3] : List ℚ).length + 2 * (3 - 1)) ∧
    extend_signal [1, 2, 3] 0 "symmetric" = none ∧
    extend_signal [1, 2] 5 "periodic" = none :=
  ⟨(extend_signal_spec [1, 2, 3] 3 "symmetric").1 (by simp) (Or.inl rfl)
      (by norm_num) (by norm_num),
   (extend_signal_spec [1, 2, 3] 0 "symmetric").2.1 rfl,
   (extend_signal_spec [1, 2] 5 "periodic").2.2 rfl (by simp) (by norm_num)⟩

end Scirs
